import Mathlib

/-!
# Fantasy book tracker: filter/sort pipeline, annotation store and recommendations

A shallow embedding of the logic of `src/script.js`.

Modelling conventions.

* The module-level globals `booksData` and `userBookData` and the four form
  controls read through `document.getElementById(..).value` are explicit
  arguments.
* A JavaScript object used as a dictionary (`userBookData`, `themeWeights`) is an
  association list of its own properties in insertion order.  The keys of
  `userBookData` are book ids.  The keys of `themeWeights` are theme names, which
  may coincide with a property inherited from `Object.prototype`; the lookup and
  the assignment of lines 324 and 339-340 are embedded with that inheritance.
* `Array.prototype.sort` is stable (ECMAScript 2019); it is embedded as a stable
  insertion sort that puts `a` before a later `b` exactly when the comparator
  gives `cmp a b ≤ 0`.  For a consistent comparator every stable sort computes
  this list.
* `String.prototype.toLowerCase`, `String.prototype.localeCompare` and
  `JSON.parse` belong to the host, not to the repository, and are parameters.
* Ratings are natural numbers, years and ids integers.  Line 346 is embedded in
  binary64 arithmetic.
-/

namespace BookTracker

/-! ## Data model -/

/-- A catalog record of `books.json`. -/
structure Book where
  id : Int
  title : String
  author : String
  year : Int
  themes : List String
  deriving DecidableEq, Repr

/-- The per-book user state stored in `userBookData`. -/
structure Annotation where
  rating : Nat
  isRead : Bool
  deriving DecidableEq, Repr

/-- The object literal passed to `setUserBookData`: each field may be absent. -/
structure PartialAnnotation where
  rating : Option Nat
  isRead : Option Bool
  deriving DecidableEq, Repr

/-- The global `userBookData`: a dictionary from book id to annotation. -/
abbrev UserBookData := List (Int × Annotation)

/-- Reading a property of a dictionary object: `obj[key]`, `none` for `undefined`. -/
def getProp {κ β : Type} [DecidableEq κ] : List (κ × β) → κ → Option β
  | [], _ => none
  | (k, v) :: rest, key => if k = key then some v else getProp rest key

/-- Assigning a property of a dictionary object: `obj[key] = v`.  An existing key
keeps its place, a new key is appended. -/
def setProp {κ β : Type} [DecidableEq κ] : List (κ × β) → κ → β → List (κ × β)
  | [], key, v => [(key, v)]
  | (k, w) :: rest, key, v =>
    if k = key then (k, v) :: rest else (k, w) :: setProp rest key v

/-! ## Annotation store (script.js lines 32-55) -/

/-- The fallback literal of line 47. -/
def defaultAnnotation : Annotation := { rating := 0, isRead := false }

/-- Line 46: `userBookData[bookId] || { rating: 0, isRead: false }`. -/
def getUserBookData (userBookData : UserBookData) (bookId : Int) : Annotation :=
  match getProp userBookData bookId with
  | some a => a
  | none => defaultAnnotation

/-- Object spread `{ ...base, ...data }` of line 52. -/
def spread (base : Annotation) (data : PartialAnnotation) : Annotation :=
  { rating := match data.rating with
      | some r => r
      | none => base.rating
    isRead := match data.isRead with
      | some b => b
      | none => base.isRead }

/-- Line 51: the new value of `userBookData` after `setUserBookData(bookId, data)`. -/
def setUserBookData (userBookData : UserBookData) (bookId : Int)
    (data : PartialAnnotation) : UserBookData :=
  setProp userBookData bookId (spread (getUserBookData userBookData bookId) data)

/-- Line 33: the value of `userBookData` after `loadUserData()`, or the exception
that leaves the function.  `stored` is the result of `localStorage.getItem`
(`none` for `null`), `parse` is `JSON.parse`, and the body has no `try`. -/
def loadUserData {ε : Type} (parse : String → Except ε UserBookData)
    (stored : Option String) (userBookData : UserBookData) : Except ε UserBookData :=
  match stored with
  | none => .ok userBookData
  | some s => if s = "" then .ok userBookData else parse s

/-! ## Filter and sort (script.js lines 75-128) -/

/-- `String.prototype.includes` on strings without lone surrogates. -/
def includes (s sub : String) : Bool := decide (sub.data <:+: s.data)

/-- The relation under which `Array.prototype.sort` leaves `a` in front of `b`. -/
def sortLE {α : Type} (cmp : α → α → Int) (a b : α) : Prop := cmp a b ≤ 0

instance {α : Type} (cmp : α → α → Int) : DecidableRel (sortLE cmp) :=
  fun a b => inferInstanceAs (Decidable (cmp a b ≤ 0))

/-- `Array.prototype.sort(cmp)`. -/
def arraySort {α : Type} (cmp : α → α → Int) (l : List α) : List α :=
  l.insertionSort (sortLE cmp)

/-- Lines 82-85: the callback of the search filter. -/
def searchPred (toLowerCase : String → String) (searchTerm : String) (book : Book) : Bool :=
  includes (toLowerCase book.title) searchTerm ||
    includes (toLowerCase book.author) searchTerm

/-- Lines 91-97: the callback of the status filter. -/
def statusPred (userBookData : UserBookData) (statusFilter : String) (book : Book) : Bool :=
  let userData := getUserBookData userBookData book.id
  if statusFilter = "read" then userData.isRead
  else if statusFilter = "unread" then !userData.isRead
  else if statusFilter = "rated" then decide (userData.rating > 0)
  else true

/-- Line 103: the callback of the theme filter. -/
def themePred (themeFilter : String) (book : Book) : Bool :=
  decide (themeFilter ∈ book.themes)

/-- Lines 108-125: the comparator handed to `sort`.  For a number `rating || 0` is
the rating itself, `0` being the only falsy one. -/
def compareBooks (localeCompare : String → String → Int) (userBookData : UserBookData)
    (sortBy : String) (a b : Book) : Int :=
  if sortBy = "title" then localeCompare a.title b.title
  else if sortBy = "author" then localeCompare a.author b.author
  else if sortBy = "year-asc" then a.year - b.year
  else if sortBy = "year-desc" then b.year - a.year
  else if sortBy = "rating" then
    let ratingA : Int := (getUserBookData userBookData a.id).rating
    let ratingB : Int := (getUserBookData userBookData b.id).rating
    ratingB - ratingA
  else 0

/-- Lines 77-104: the three filter steps, before sorting. -/
def filterSteps (toLowerCase : String → String) (booksData : List Book)
    (userBookData : UserBookData) (searchInput statusFilter themeFilter : String) :
    List Book :=
  let filtered := booksData
  let searchTerm := toLowerCase searchInput
  let filtered :=
    if searchTerm ≠ "" then filtered.filter (searchPred toLowerCase searchTerm) else filtered
  let filtered :=
    if statusFilter ≠ "all" then filtered.filter (statusPred userBookData statusFilter)
    else filtered
  let filtered :=
    if themeFilter ≠ "all" then filtered.filter (themePred themeFilter) else filtered
  filtered

/-- Line 76: `getFilteredBooks()`. -/
def getFilteredBooks (toLowerCase : String → String) (localeCompare : String → String → Int)
    (booksData : List Book) (userBookData : UserBookData)
    (searchInput statusFilter themeFilter sortBy : String) : List Book :=
  arraySort (compareBooks localeCompare userBookData sortBy)
    (filterSteps toLowerCase booksData userBookData searchInput statusFilter themeFilter)

/-! ## Recommendations (script.js lines 305-361) -/

/-- The JavaScript values that `themeWeights[theme]` and the local `score` can
hold.  `text` is a string that contains the source text of a built-in function or
`[object Object]`: it is not empty and does not read as a number.  `object` is a
function or object inherited from `Object.prototype`. -/
inductive JSValue where
  | undefined
  | nan
  | number (n : Nat)
  | text
  | object
  deriving DecidableEq, Repr

/-- The property names that every object literal inherits from `Object.prototype`. -/
def objectPrototypeNames : List String :=
  ["constructor", "hasOwnProperty", "isPrototypeOf", "propertyIsEnumerable",
    "toLocaleString", "toString", "valueOf", "__proto__",
    "__defineGetter__", "__defineSetter__", "__lookupGetter__", "__lookupSetter__"]

/-- JavaScript truthiness. -/
def truthy : JSValue → Bool
  | .undefined => false
  | .nan => false
  | .number n => decide (n ≠ 0)
  | .text => true
  | .object => true

/-- The expression `v || 0`. -/
def orZero (v : JSValue) : JSValue := if truthy v then v else .number 0

/-- The operator `+`: numbers add, a string or object operand makes the result a
string, and `undefined` or `NaN` with a number gives `NaN`. -/
def jsAdd : JSValue → JSValue → JSValue
  | .number m, .number n => .number (m + n)
  | .text, _ => .text
  | _, .text => .text
  | .object, _ => .text
  | _, .object => .text
  | _, _ => .nan

/-- The test `v > 0`: a string that is not a number compares as `NaN`. -/
def positive : JSValue → Bool
  | .number n => decide (0 < n)
  | _ => false

/-- The object `themeWeights`, created as `{}`: its own properties, in insertion
order. -/
abbrev ThemeWeights := List (String × JSValue)

/-- The lookup `themeWeights[theme]`: an own property, else a property inherited
from `Object.prototype`, else `undefined`. -/
def getWeight (themeWeights : ThemeWeights) (theme : String) : JSValue :=
  match getProp themeWeights theme with
  | some v => v
  | none => if theme ∈ objectPrototypeNames then .object else .undefined

/-- Line 324: `themeWeights[theme] = (themeWeights[theme] || 0) + rating`.  The
value assigned is a number or a string; at `__proto__` the assignment reaches the
inherited setter, which ignores such a value. -/
def addWeight (rating : Nat) (themeWeights : ThemeWeights) (theme : String) : ThemeWeights :=
  let value := jsAdd (orZero (getWeight themeWeights theme)) (.number rating)
  if theme = "__proto__" then themeWeights else setProp themeWeights theme value

/-- Lines 308-311: the liked books. -/
def highlyRatedBooks (booksData : List Book) (userBookData : UserBookData) : List Book :=
  booksData.filter fun book => decide ((getUserBookData userBookData book.id).rating ≥ 4)

/-- Lines 319-326: the two nested `forEach` loops that fill `themeWeights`. -/
def buildThemeWeights (userBookData : UserBookData) (liked : List Book) : ThemeWeights :=
  liked.foldl
    (fun tw book => book.themes.foldl (addWeight (getUserBookData userBookData book.id).rating) tw)
    []

/-- Lines 329-332: the candidate pool. -/
def unreadBooks (booksData : List Book) (userBookData : UserBookData) : List Book :=
  booksData.filter fun book => !(getUserBookData userBookData book.id).isRead

/-- An entry of `scoredBooks`.  `matchPercentage` is `none` for `NaN`. -/
structure ScoredBook where
  book : Book
  score : JSValue
  matchingThemes : List String
  matchPercentage : Option Nat
  deriving DecidableEq, Repr

/-- Lines 338-343: one step of the loop over the candidate's themes, on the pair
`(score, matchingThemes)`. -/
def scoreStep (themeWeights : ThemeWeights) (acc : JSValue × List String) (theme : String) :
    JSValue × List String :=
  if truthy (getWeight themeWeights theme) then
    (jsAdd acc.1 (getWeight themeWeights theme), acc.2 ++ [theme])
  else acc

/-- Auxiliary loop of `floorLog2`, with a step bound. -/
def floorLog2Loop : Nat → Nat → Nat
  | 0, _ => 0
  | fuel + 1, n => if n < 2 then 0 else floorLog2Loop fuel (n / 2) + 1

/-- The position of the leading binary digit of a positive number. -/
def floorLog2 (n : Nat) : Nat := floorLog2Loop n n

/-- The binary64 value nearest to the positive rational `p / q` (53 significant
bits, ties to even), as a fraction whose denominator is a power of two.  Array
lengths are below `2 ^ 32`, so the operands of line 346 are exact and no result
overflows or is subnormal. -/
def roundToDouble (p q : Nat) : Nat × Nat :=
  if p = 0 ∨ q = 0 then (0, 1)
  else
    let e0 : Int := (floorLog2 p : Int) - (floorLog2 q : Int)
    let e : Int := if q * 2 ^ e0.toNat ≤ p * 2 ^ (-e0).toNat then e0 else e0 - 1
    let k : Int := 52 - e
    let n := p * 2 ^ k.toNat
    let d := q * 2 ^ (-k).toNat
    let f := n / d
    let r := n % d
    let m := if 2 * r < d then f else if d < 2 * r then f + 1 else if f % 2 = 0 then f else f + 1
    (m * 2 ^ (-k).toNat, 2 ^ k.toNat)

/-- Line 346: `Math.min(100, Math.round((matching / total) * 100))` in binary64
arithmetic: the quotient and the product are each rounded to the nearest double,
`Math.round` rounds halves up.  `0 / 0` is `NaN`; a positive number over `0` is
`Infinity`, which `Math.min` caps at `100`. -/
def matchPercentageOf (matching total : Nat) : Option Nat :=
  if total = 0 then (if matching = 0 then none else some 100)
  else
    let ratio := roundToDouble matching total
    let scaled := roundToDouble (ratio.1 * 100) ratio.2
    some (min 100 ((2 * scaled.1 + scaled.2) / (2 * scaled.2)))

/-- Lines 334-354: the callback of `unreadBooks.map`. -/
def scoreBook (themeWeights : ThemeWeights) (book : Book) : ScoredBook :=
  let r := book.themes.foldl (scoreStep themeWeights) (.number 0, [])
  { book := book
    score := r.1
    matchingThemes := r.2
    matchPercentage := matchPercentageOf r.2.length book.themes.length }

/-- Line 359: the comparator `(a, b) => b.score - a.score`.  A difference that is
`NaN` counts as `0` in `sort`. -/
def compareScore (a b : ScoredBook) : Int :=
  match b.score, a.score with
  | .number m, .number n => (m : Int) - (n : Int)
  | _, _ => 0

/-- Lines 319-326 applied to the liked books of the catalog: the final `themeWeights`. -/
def themeWeightsOf (booksData : List Book) (userBookData : UserBookData) : ThemeWeights :=
  buildThemeWeights userBookData (highlyRatedBooks booksData userBookData)

/-- Lines 334-354: the array `scoredBooks`, one entry per unread book, in catalog order. -/
def scoredBooks (booksData : List Book) (userBookData : UserBookData) : List ScoredBook :=
  (unreadBooks booksData userBookData).map (scoreBook (themeWeightsOf booksData userBookData))

/-- Line 358: the entries of `scoredBooks` with `score > 0`, in catalog order. -/
def positiveCandidates (booksData : List Book) (userBookData : UserBookData) :
    List ScoredBook :=
  (scoredBooks booksData userBookData).filter fun item => positive item.score

/-- Line 306: `getRecommendations()`. -/
def getRecommendations (booksData : List Book) (userBookData : UserBookData) :
    List ScoredBook :=
  if (highlyRatedBooks booksData userBookData).length = 0 then []
  else (arraySort compareScore (positiveCandidates booksData userBookData)).take 6

/-- The numeric value of a score that is a number. -/
def scoreNumber : JSValue → Nat
  | .number n => n
  | _ => 0

/-- Reading `theme` in `themeWeights` gives the number `n`; an absent theme reads
as `0` under `|| 0`. -/
def ReadsNumber (themeWeights : ThemeWeights) (theme : String) (n : Nat) : Prop :=
  getWeight themeWeights theme = .number n ∨
    (n = 0 ∧ getWeight themeWeights theme = .undefined)

/-- Each own property of `themeWeights` under an inherited name holds a string. -/
def InheritedAreText (themeWeights : ThemeWeights) : Prop :=
  ∀ t ∈ objectPrototypeNames, ∀ v, getProp themeWeights t = some v → v = .text

/-! ## Readings of the specification used for comparison -/

/-- The specification's theme weight, themes read as a set: the sum of the ratings
of the liked books whose themes contain `theme`. -/
def setThemeWeight (booksData : List Book) (userBookData : UserBookData) (theme : String) :
    Nat :=
  (((highlyRatedBooks booksData userBookData).filter fun book => decide (theme ∈ book.themes)).map
    fun book => (getUserBookData userBookData book.id).rating).sum

/-- The specification's score, themes read as a set: the sum of the set-based
weights over the distinct themes of the candidate that have a weight. -/
def setScore (booksData : List Book) (userBookData : UserBookData) (book : Book) : Nat :=
  ((book.themes.dedup.filter fun t => decide (setThemeWeight booksData userBookData t ≠ 0)).map
    (setThemeWeight booksData userBookData)).sum

/-- The specification's status predicate for the four recognised values. -/
def specStatus (userBookData : UserBookData) (statusFilter : String) (book : Book) : Bool :=
  if statusFilter = "all" then true
  else if statusFilter = "read" then (getUserBookData userBookData book.id).isRead
  else if statusFilter = "unread" then !(getUserBookData userBookData book.id).isRead
  else if statusFilter = "rated" then decide (0 < (getUserBookData userBookData book.id).rating)
  else false

/-- The specification's text predicate: the search text is empty, or its lower-case
form is a substring of the lower-case title or of the lower-case author. -/
def specSearch (toLowerCase : String → String) (searchText : String) (book : Book) : Bool :=
  decide (searchText = "") ||
    decide ((toLowerCase searchText).data <:+: (toLowerCase book.title).data) ||
    decide ((toLowerCase searchText).data <:+: (toLowerCase book.author).data)

/-- The specification's theme predicate: the filter is `all` or a theme of the book. -/
def specTheme (themeFilter : String) (book : Book) : Bool :=
  decide (themeFilter = "all") || decide (themeFilter ∈ book.themes)

/-! ## Concrete inputs -/

/-- A stand-in for `JSON.parse` that accepts the empty object only. -/
def parseEmptyObject (s : String) : Except String UserBookData :=
  if s = "\x7b\x7d" then .ok [] else .error "SyntaxError"

/-- A stand-in for `toLowerCase` that lowers the letters `A` to `Z` only. -/
def asciiLower (s : String) : String := ⟨s.data.map Char.toLower⟩

/-- A stand-in for `localeCompare` that orders strings by length only. -/
def lengthCompare (a b : String) : Int := (a.length : Int) - (b.length : Int)

/-- The first book of the specification's example. -/
def warBook : Book := ⟨1, "A", "x", 2000, ["war", "magic"]⟩

/-- The second book of the specification's example. -/
def magicBook : Book := ⟨2, "B", "y", 1990, ["magic"]⟩

/-- A book that lists the theme `magic` twice. -/
def doubledBook : Book := ⟨1, "A", "x", 2000, ["magic", "magic"]⟩

/-- The annotation map after book 1 was rated 5, which also marks it read. -/
def ratedFirst : UserBookData := [(1, { rating := 5, isRead := true })]

/-- An annotation map in which book 2 is rated 4 and unread. -/
def likedUnread : UserBookData := [(2, { rating := 4, isRead := false })]

/-- A book whose only theme is the name of an inherited property. -/
def constructorBook : Book := ⟨1, "A", "x", 2000, ["constructor"]⟩

/-- An annotation map in which book 1 is rated 5 and unread. -/
def likedFirstUnread : UserBookData := [(1, { rating := 5, isRead := false })]

/-! ## Dictionaries -/

theorem getProp_setProp {κ β : Type} [DecidableEq κ] (l : List (κ × β)) (k k' : κ) (v : β) :
    getProp (setProp l k v) k' = if k = k' then some v else getProp l k' := by
  induction l with
  | nil => simp [setProp, getProp]
  | cons p rest ih =>
    obtain ⟨a, w⟩ := p
    by_cases hak : a = k
    · subst hak
      by_cases hk : a = k' <;> simp [setProp, getProp, hk]
    · by_cases hk : k = k'
      · subst hk
        simp [setProp, getProp, hak, ih]
      · simp [setProp, getProp, hak, ih, hk]

/-! ## The stable sort -/

theorem arraySort_perm {α : Type} (cmp : α → α → Int) (l : List α) :
    (arraySort cmp l).Perm l :=
  List.perm_insertionSort _ l

theorem mem_arraySort {α : Type} (cmp : α → α → Int) (l : List α) (x : α) :
    x ∈ arraySort cmp l ↔ x ∈ l :=
  (arraySort_perm cmp l).mem_iff

/-- For a comparator that orders by a key, the sorted list is ordered by that key. -/
theorem arraySort_pairwise {α : Type} (cmp : α → α → Int) (key : α → Int)
    (hkey : ∀ a b, cmp a b ≤ 0 ↔ key a ≤ key b) (l : List α) :
    (arraySort cmp l).Pairwise (fun a b => key a ≤ key b) := by
  haveI : IsTotal α (sortLE cmp) :=
    ⟨fun a b => by
      rcases le_total (key a) (key b) with h | h
      · exact Or.inl ((hkey a b).2 h)
      · exact Or.inr ((hkey b a).2 h)⟩
  haveI : IsTrans α (sortLE cmp) :=
    ⟨fun a b c hab hbc => (hkey a c).2 (le_trans ((hkey a b).1 hab) ((hkey b c).1 hbc))⟩
  have h : List.Sorted (sortLE cmp) (arraySort cmp l) := List.sorted_insertionSort _ l
  exact List.Pairwise.imp (fun {a b} hab => (hkey a b).1 hab) h

/-- Stability: elements that the comparator does not separate keep their order. -/
theorem arraySort_filter {α : Type} (cmp : α → α → Int) (p : α → Bool)
    (hp : ∀ a b, p a = true → p b = true → cmp a b ≤ 0) (l : List α) :
    (arraySort cmp l).filter p = l.filter p := by
  have hpw : (l.filter p).Pairwise (sortLE cmp) := by
    rw [List.pairwise_iff_forall_sublist]
    intro a b hab
    have ha : a ∈ l.filter p := hab.subset (by simp)
    have hb : b ∈ l.filter p := hab.subset (by simp)
    exact hp a b (List.mem_filter.1 ha).2 (List.mem_filter.1 hb).2
  have hsub : List.Sublist (l.filter p) (arraySort cmp l) :=
    List.sublist_insertionSort hpw (List.filter_sublist l)
  have hsub2 : List.Sublist (l.filter p) ((arraySort cmp l).filter p) := by
    have := hsub.filter p
    simpa [List.filter_filter] using this
  have hlen : ((arraySort cmp l).filter p).length = (l.filter p).length :=
    ((arraySort_perm cmp l).filter p).length_eq
  exact (hsub2.eq_of_length hlen.symm).symm

/-- A list that is already in order is returned unchanged. -/
theorem arraySort_eq_self {α : Type} (cmp : α → α → Int) (l : List α)
    (h : l.Pairwise (fun a b => cmp a b ≤ 0)) : arraySort cmp l = l :=
  List.Sorted.insertionSort_eq h

/-! ## Theme weights and scores -/

theorem arraySort_congr {α : Type} (cmp cmp' : α → α → Int) (l : List α)
    (h : ∀ a ∈ l, ∀ b ∈ l, (cmp a b ≤ 0 ↔ cmp' a b ≤ 0)) :
    arraySort cmp l = arraySort cmp' l := by
  have hins : ∀ (a : α) (l' : List α), (∀ b ∈ l', (cmp a b ≤ 0 ↔ cmp' a b ≤ 0)) →
      List.orderedInsert (sortLE cmp) a l' = List.orderedInsert (sortLE cmp') a l' := by
    intro a l'
    induction l' with
    | nil => intro _; rfl
    | cons b rest ih =>
      intro hb
      have hab : sortLE cmp a b ↔ sortLE cmp' a b := hb b (List.mem_cons_self b rest)
      have hrest := ih (fun c hc => hb c (List.mem_cons_of_mem b hc))
      by_cases hc : sortLE cmp a b
      · rw [List.orderedInsert, List.orderedInsert, if_pos hc, if_pos (hab.1 hc)]
      · rw [List.orderedInsert, List.orderedInsert, if_neg hc, if_neg (fun h' => hc (hab.2 h')),
          hrest]
  induction l with
  | nil => rfl
  | cons a rest ih =>
    have hrest := ih (fun x hx y hy =>
      h x (List.mem_cons_of_mem a hx) y (List.mem_cons_of_mem a hy))
    show List.orderedInsert (sortLE cmp) a (arraySort cmp rest)
      = List.orderedInsert (sortLE cmp') a (arraySort cmp' rest)
    rw [hrest]
    apply hins
    intro b hb
    exact h a (List.mem_cons_self a rest) b
      (List.mem_cons_of_mem a ((mem_arraySort cmp' rest b).1 hb))

theorem positive_iff (v : JSValue) : positive v = true ↔ ∃ n, v = .number n ∧ 0 < n := by
  cases v <;> simp [positive]

/-- On entries whose scores are numbers, `compareScore` sorts by the numeric score. -/
theorem arraySort_compareScore (l : List ScoredBook)
    (h : ∀ x ∈ l, ∃ n, x.score = .number n) :
    arraySort compareScore l
      = arraySort (fun a b => (scoreNumber b.score : Int) - (scoreNumber a.score : Int)) l := by
  apply arraySort_congr
  intro a ha b hb
  obtain ⟨m, hm⟩ := h a ha
  obtain ⟨n, hn⟩ := h b hb
  simp only [compareScore, hm, hn, scoreNumber]

theorem getWeight_addWeight_of_ne (rating : Nat) (tw : ThemeWeights) (a t : String)
    (h : a ≠ t) : getWeight (addWeight rating tw a) t = getWeight tw t := by
  unfold addWeight
  by_cases hp : a = "__proto__"
  · simp [hp]
  · simp only [if_neg hp]
    unfold getWeight
    rw [getProp_setProp, if_neg h]

theorem getWeight_addWeight_self (rating : Nat) (tw : ThemeWeights) (t : String)
    (ht : t ≠ "__proto__") :
    getWeight (addWeight rating tw t) t
      = jsAdd (orZero (getWeight tw t)) (.number rating) := by
  unfold addWeight
  simp only [if_neg ht]
  generalize jsAdd (orZero (getWeight tw t)) (.number rating) = v
  unfold getWeight
  rw [getProp_setProp, if_pos rfl]

theorem ne_proto_of_not_inherited (t : String) (ht : t ∉ objectPrototypeNames) :
    t ≠ "__proto__" := by
  intro h
  apply ht
  rw [h]
  decide

theorem ReadsNumber.orZero_eq {tw : ThemeWeights} {t : String} {n : Nat}
    (h : ReadsNumber tw t n) : orZero (getWeight tw t) = .number n := by
  rcases h with h | ⟨h0, h⟩
  · rw [h]
    by_cases hn : n = 0
    · simp [orZero, truthy, hn]
    · simp [orZero, truthy, hn]
  · rw [h, h0]
    rfl

theorem ReadsNumber.truthy_eq {tw : ThemeWeights} {t : String} {n : Nat}
    (h : ReadsNumber tw t n) : truthy (getWeight tw t) = decide (n ≠ 0) := by
  rcases h with h | ⟨h0, h⟩
  · rw [h]
    rfl
  · rw [h, h0]
    rfl

theorem ReadsNumber.eq_of_ne_zero {tw : ThemeWeights} {t : String} {n : Nat}
    (h : ReadsNumber tw t n) (hn : n ≠ 0) : getWeight tw t = .number n := by
  rcases h with h | ⟨h0, _⟩
  · exact h
  · exact absurd h0 hn

theorem readsNumber_nil (t : String) (ht : t ∉ objectPrototypeNames) :
    ReadsNumber [] t 0 := by
  right
  refine ⟨rfl, ?_⟩
  simp [getWeight, getProp, ht]

/-- One execution of line 324 adds `rating` to the theme assigned and leaves the
other themes alone. -/
theorem readsNumber_addWeight (rating : Nat) (tw : ThemeWeights) (a t : String) (n : Nat)
    (ht : t ∉ objectPrototypeNames) (h : ReadsNumber tw t n) :
    ReadsNumber (addWeight rating tw a) t (n + if a = t then rating else 0) := by
  by_cases hat : a = t
  · subst hat
    left
    rw [getWeight_addWeight_self rating tw a (ne_proto_of_not_inherited a ht), h.orZero_eq]
    simp [jsAdd]
  · rw [if_neg hat, Nat.add_zero]
    unfold ReadsNumber
    rw [getWeight_addWeight_of_ne rating tw a t hat]
    exact h

/-- The inner loop of lines 322-325 adds `rating` once per occurrence of the theme. -/
theorem readsNumber_foldl_addWeight (rating : Nat) (ts : List String) (tw : ThemeWeights)
    (t : String) (n : Nat) (ht : t ∉ objectPrototypeNames) (h : ReadsNumber tw t n) :
    ReadsNumber (ts.foldl (addWeight rating) tw) t (n + rating * ts.count t) := by
  induction ts generalizing tw n with
  | nil => simpa using h
  | cons a rest ih =>
    rw [List.foldl_cons]
    have hstep := ih (addWeight rating tw a) _ (readsNumber_addWeight rating tw a t n ht h)
    have hcount : (n + if a = t then rating else 0) + rating * rest.count t
        = n + rating * (a :: rest).count t := by
      rw [List.count_cons]
      by_cases hat : a = t
      · subst hat
        simp only [beq_self_eq_true, if_true, Nat.mul_add, Nat.mul_one]
        omega
      · simp [hat]
    rw [hcount] at hstep
    exact hstep

/-- The weight of a theme after the outer loop of lines 320-326. -/
theorem readsNumber_foldl_books (userBookData : UserBookData) (liked : List Book)
    (tw : ThemeWeights) (t : String) (n : Nat) (ht : t ∉ objectPrototypeNames)
    (h : ReadsNumber tw t n) :
    ReadsNumber
      (liked.foldl (fun tw book =>
        book.themes.foldl (addWeight (getUserBookData userBookData book.id).rating) tw) tw) t
      (n + (liked.map fun book =>
          (getUserBookData userBookData book.id).rating * book.themes.count t).sum) := by
  induction liked generalizing tw n with
  | nil => simpa using h
  | cons b rest ih =>
    rw [List.foldl_cons]
    have hstep := ih _ _ (readsNumber_foldl_addWeight
      (getUserBookData userBookData b.id).rating b.themes tw t n ht h)
    simpa [Nat.add_assoc] using hstep

theorem readsNumber_themeWeightsOf (booksData : List Book) (userBookData : UserBookData)
    (t : String) (ht : t ∉ objectPrototypeNames) :
    ReadsNumber (themeWeightsOf booksData userBookData) t
      ((highlyRatedBooks booksData userBookData).map fun book =>
        (getUserBookData userBookData book.id).rating * book.themes.count t).sum := by
  have h := readsNumber_foldl_books userBookData (highlyRatedBooks booksData userBookData)
    [] t 0 ht (readsNumber_nil t ht)
  simpa [themeWeightsOf, buildThemeWeights] using h

/-- The loop of lines 338-343 on themes that all read as numbers. -/
theorem foldl_scoreStep_numbers (tw : ThemeWeights) (w : String → Nat) (ts : List String)
    (h : ∀ t ∈ ts, ReadsNumber tw t (w t)) (s : Nat) (acc : List String) :
    ts.foldl (scoreStep tw) (.number s, acc) =
      (.number (s + ((ts.filter fun t => decide (w t ≠ 0)).map w).sum),
        acc ++ ts.filter fun t => decide (w t ≠ 0)) := by
  induction ts generalizing s acc with
  | nil => simp
  | cons a rest ih =>
    have ha := h a (List.mem_cons_self a rest)
    have hrest := fun t ht => h t (List.mem_cons_of_mem a ht)
    rw [List.foldl_cons]
    by_cases hw : w a = 0
    · have hstep : scoreStep tw (.number s, acc) a = (.number s, acc) := by
        simp [scoreStep, ha.truthy_eq, hw]
      rw [hstep, ih hrest]
      simp [List.filter_cons, hw]
    · have hstep : scoreStep tw (.number s, acc) a = (.number (s + w a), acc ++ [a]) := by
        simp [scoreStep, ha.eq_of_ne_zero hw, truthy, hw, jsAdd]
      rw [hstep, ih hrest]
      simp [List.filter_cons, hw, Nat.add_assoc]

theorem scoreBook_book (tw : ThemeWeights) (book : Book) : (scoreBook tw book).book = book := rfl

theorem inheritedAreText_nil : InheritedAreText [] := by
  intro t _ v hv
  simp [getProp] at hv

theorem getWeight_inherited (tw : ThemeWeights) (hinv : InheritedAreText tw) (t : String)
    (ht : t ∈ objectPrototypeNames) :
    getWeight tw t = .text ∨ getWeight tw t = .object := by
  unfold getWeight
  cases hg : getProp tw t with
  | none =>
    right
    simp [ht]
  | some v =>
    left
    simp [hinv t ht v hg]

/-- Line 324 at an inherited name stores a string, never a number. -/
theorem inheritedAreText_addWeight (rating : Nat) (tw : ThemeWeights) (a : String)
    (hinv : InheritedAreText tw) : InheritedAreText (addWeight rating tw a) := by
  unfold addWeight
  by_cases hp : a = "__proto__"
  · simpa [hp] using hinv
  · simp only [if_neg hp]
    intro t ht v hv
    rw [getProp_setProp] at hv
    by_cases hat : a = t
    · subst hat
      rw [if_pos rfl] at hv
      have hv2 : jsAdd (orZero (getWeight tw a)) (.number rating) = v := Option.some.inj hv
      rcases getWeight_inherited tw hinv a ht with h | h
      · rw [h] at hv2
        exact hv2.symm
      · rw [h] at hv2
        exact hv2.symm
    · rw [if_neg hat] at hv
      exact hinv t ht v hv

theorem inheritedAreText_foldl_addWeight (rating : Nat) (ts : List String) (tw : ThemeWeights)
    (hinv : InheritedAreText tw) : InheritedAreText (ts.foldl (addWeight rating) tw) := by
  induction ts generalizing tw with
  | nil => exact hinv
  | cons a rest ih => exact ih _ (inheritedAreText_addWeight rating tw a hinv)

theorem inheritedAreText_themeWeightsOf (booksData : List Book) (userBookData : UserBookData) :
    InheritedAreText (themeWeightsOf booksData userBookData) := by
  unfold themeWeightsOf buildThemeWeights
  generalize highlyRatedBooks booksData userBookData = liked
  have h : ∀ tw : ThemeWeights, InheritedAreText tw →
      InheritedAreText (liked.foldl (fun tw book =>
        book.themes.foldl (addWeight (getUserBookData userBookData book.id).rating) tw) tw) := by
    induction liked with
    | nil => exact fun tw htw => htw
    | cons b rest ih =>
      intro tw htw
      exact ih _ (inheritedAreText_foldl_addWeight _ b.themes tw htw)
  exact h [] inheritedAreText_nil

/-- Once the score is a string it stays a string. -/
theorem foldl_scoreStep_text (tw : ThemeWeights) (ts : List String) (acc : List String) :
    (ts.foldl (scoreStep tw) (.text, acc)).1 = .text := by
  induction ts generalizing acc with
  | nil => rfl
  | cons a rest ih =>
    rw [List.foldl_cons]
    by_cases h : truthy (getWeight tw a) = true
    · have hstep : scoreStep tw (.text, acc) a = (.text, acc ++ [a]) := by
        simp [scoreStep, h, jsAdd]
      rw [hstep]
      exact ih _
    · have hstep : scoreStep tw (.text, acc) a = (.text, acc) := by
        simp [scoreStep, h]
      rw [hstep]
      exact ih _

/-- A theme that names an inherited property turns the score into a string. -/
theorem foldl_scoreStep_inherited (tw : ThemeWeights) (hinv : InheritedAreText tw)
    (ts : List String) (h : ∃ t ∈ ts, t ∈ objectPrototypeNames) (s : Nat)
    (acc : List String) :
    (ts.foldl (scoreStep tw) (.number s, acc)).1 = .text := by
  induction ts generalizing s acc with
  | nil =>
    obtain ⟨t, ht, _⟩ := h
    simp at ht
  | cons a rest ih =>
    rw [List.foldl_cons]
    by_cases ha : a ∈ objectPrototypeNames
    · have hstep : scoreStep tw (.number s, acc) a = (.text, acc ++ [a]) := by
        rcases getWeight_inherited tw hinv a ha with hw | hw <;>
          simp [scoreStep, hw, truthy, jsAdd]
      rw [hstep]
      exact foldl_scoreStep_text tw rest _
    · have hrest : ∃ t ∈ rest, t ∈ objectPrototypeNames := by
        obtain ⟨t, ht, hp⟩ := h
        rcases List.mem_cons.1 ht with rfl | ht
        · exact absurd hp ha
        · exact ⟨t, ht, hp⟩
      cases hv : getWeight tw a with
      | undefined =>
        have hstep : scoreStep tw (.number s, acc) a = (.number s, acc) := by
          simp [scoreStep, hv, truthy]
        rw [hstep]
        exact ih hrest s acc
      | nan =>
        have hstep : scoreStep tw (.number s, acc) a = (.number s, acc) := by
          simp [scoreStep, hv, truthy]
        rw [hstep]
        exact ih hrest s acc
      | number n =>
        by_cases hn : n = 0
        · have hstep : scoreStep tw (.number s, acc) a = (.number s, acc) := by
            simp [scoreStep, hv, truthy, hn]
          rw [hstep]
          exact ih hrest s acc
        · have hstep : scoreStep tw (.number s, acc) a = (.number (s + n), acc ++ [a]) := by
            simp [scoreStep, hv, truthy, hn, jsAdd]
          rw [hstep]
          exact ih hrest _ _
      | text =>
        have hstep : scoreStep tw (.number s, acc) a = (.text, acc ++ [a]) := by
          simp [scoreStep, hv, truthy, jsAdd]
        rw [hstep]
        exact foldl_scoreStep_text tw rest _
      | object =>
        have hstep : scoreStep tw (.number s, acc) a = (.text, acc ++ [a]) := by
          simp [scoreStep, hv, truthy, jsAdd]
        rw [hstep]
        exact foldl_scoreStep_text tw rest _

/-- A candidate whose score is a number lists no inherited property name. -/
theorem themes_plain_of_score_number (tw : ThemeWeights) (hinv : InheritedAreText tw)
    (book : Book) (n : Nat) (h : (scoreBook tw book).score = .number n) :
    ∀ t ∈ book.themes, t ∉ objectPrototypeNames := by
  intro t ht hp
  have htext := foldl_scoreStep_inherited tw hinv book.themes ⟨t, ht, hp⟩ 0 []
  have hscore : (scoreBook tw book).score
      = (book.themes.foldl (scoreStep tw) (.number 0, [])).1 := rfl
  rw [hscore, htext] at h
  exact JSValue.noConfusion h

/-- The score and the matching themes of a candidate without inherited names. -/
theorem scoreBook_plain (booksData : List Book) (userBookData : UserBookData) (book : Book)
    (hplain : ∀ t ∈ book.themes, t ∉ objectPrototypeNames) :
    let weight := fun t : String =>
      ((highlyRatedBooks booksData userBookData).map fun liked =>
        (getUserBookData userBookData liked.id).rating * liked.themes.count t).sum
    (scoreBook (themeWeightsOf booksData userBookData) book).score
        = .number ((book.themes.filter fun t => decide (weight t ≠ 0)).map weight).sum ∧
    (scoreBook (themeWeightsOf booksData userBookData) book).matchingThemes
        = book.themes.filter fun t => decide (weight t ≠ 0) := by
  intro weight
  have hfold := foldl_scoreStep_numbers (themeWeightsOf booksData userBookData) weight
    book.themes
    (fun t ht => readsNumber_themeWeightsOf booksData userBookData t (hplain t ht)) 0 []
  constructor
  · show (book.themes.foldl (scoreStep (themeWeightsOf booksData userBookData))
      (.number 0, [])).1 = _
    rw [hfold]
    simp
  · show (book.themes.foldl (scoreStep (themeWeightsOf booksData userBookData))
      (.number 0, [])).2 = _
    rw [hfold]
    simp

/-- Every entry that `getRecommendations` returns is a positive-score candidate. -/
theorem mem_getRecommendations (booksData : List Book) (userBookData : UserBookData)
    (item : ScoredBook) (h : item ∈ getRecommendations booksData userBookData) :
    item ∈ positiveCandidates booksData userBookData := by
  unfold getRecommendations at h
  split at h
  · simp at h
  · exact (mem_arraySort _ _ _).1 (List.mem_of_mem_take h)

/-- Every positive-score candidate is the scored entry of an unread catalog book. -/
theorem mem_positiveCandidates (booksData : List Book) (userBookData : UserBookData)
    (item : ScoredBook) (h : item ∈ positiveCandidates booksData userBookData) :
    (∃ n, item.score = .number n ∧ 0 < n) ∧ ∃ book ∈ booksData,
      (getUserBookData userBookData book.id).isRead = false ∧
      item = scoreBook (themeWeightsOf booksData userBookData) book := by
  unfold positiveCandidates scoredBooks unreadBooks at h
  simp only [List.mem_filter, List.mem_map] at h
  obtain ⟨⟨book, ⟨hb, hr⟩, rfl⟩, hpos⟩ := h
  refine ⟨(positive_iff _).1 hpos, book, hb, ?_, rfl⟩
  simpa using hr

/-- The sort of line 359 on the positive candidates is the sort by numeric score. -/
theorem arraySort_positiveCandidates (booksData : List Book) (userBookData : UserBookData) :
    arraySort compareScore (positiveCandidates booksData userBookData)
      = arraySort (fun a b => (scoreNumber b.score : Int) - (scoreNumber a.score : Int))
          (positiveCandidates booksData userBookData) := by
  apply arraySort_compareScore
  intro x hx
  obtain ⟨⟨n, hn, _⟩, _⟩ := mem_positiveCandidates booksData userBookData x hx
  exact ⟨n, hn⟩

/-- The sorted positive candidates: a rearrangement with non-increasing numeric
scores in which entries with one and the same score keep their order. -/
theorem sorted_positiveCandidates (booksData : List Book) (userBookData : UserBookData) :
    let sorted := arraySort compareScore (positiveCandidates booksData userBookData)
    sorted.Perm (positiveCandidates booksData userBookData) ∧
    sorted.Pairwise (fun a b =>
      ∃ m n, a.score = .number m ∧ b.score = .number n ∧ n ≤ m) ∧
    (∀ s : Nat, sorted.filter (fun item => decide (item.score = .number s))
      = (positiveCandidates booksData userBookData).filter
          (fun item => decide (item.score = .number s))) := by
  intro sorted
  have hperm : sorted.Perm (positiveCandidates booksData userBookData) := arraySort_perm _ _
  have hnum : ∀ x ∈ sorted, ∃ n, x.score = .number n ∧ 0 < n := fun x hx =>
    (mem_positiveCandidates booksData userBookData x (hperm.mem_iff.1 hx)).1
  have hkey := arraySort_pairwise
    (fun a b : ScoredBook => (scoreNumber b.score : Int) - (scoreNumber a.score : Int))
    (fun x => -(scoreNumber x.score : Int))
    (fun a b => by
      show (scoreNumber b.score : Int) - (scoreNumber a.score : Int) ≤ 0
        ↔ -(scoreNumber a.score : Int) ≤ -(scoreNumber b.score : Int)
      omega) (positiveCandidates booksData userBookData)
  rw [← arraySort_positiveCandidates] at hkey
  refine ⟨hperm, ?_, ?_⟩
  · have hmem : sorted.Pairwise (fun a b => a ∈ sorted ∧ b ∈ sorted) :=
      List.pairwise_of_forall_mem_list (fun a ha b hb => ⟨ha, hb⟩)
    refine List.Pairwise.imp₂ ?_ hkey hmem
    intro a b hab hin
    obtain ⟨m, hm, _⟩ := hnum a hin.1
    obtain ⟨n, hn, _⟩ := hnum b hin.2
    have hab2 : -(scoreNumber a.score : Int) ≤ -(scoreNumber b.score : Int) := hab
    rw [hm, hn] at hab2
    simp only [scoreNumber] at hab2
    exact ⟨m, n, hm, hn, by omega⟩
  · intro s
    show (arraySort compareScore (positiveCandidates booksData userBookData)).filter _ = _
    rw [arraySort_positiveCandidates]
    apply arraySort_filter
    intro a b ha hb
    have ha2 : a.score = .number s := by simpa using ha
    have hb2 : b.score = .number s := by simpa using hb
    show (scoreNumber b.score : Int) - (scoreNumber a.score : Int) ≤ 0
    rw [ha2, hb2]
    simp

theorem getRecommendations_of_liked (booksData : List Book) (userBookData : UserBookData)
    (book : Book) (hmem : book ∈ booksData)
    (hr : 4 ≤ (getUserBookData userBookData book.id).rating) :
    getRecommendations booksData userBookData
      = (arraySort compareScore (positiveCandidates booksData userBookData)).take 6 := by
  have hin : book ∈ highlyRatedBooks booksData userBookData := by
    simp [highlyRatedBooks, hmem, hr]
  have hne : ¬ (highlyRatedBooks booksData userBookData).length = 0 := by
    intro h0
    rw [List.length_eq_zero] at h0
    rw [h0] at hin
    simp at hin
  unfold getRecommendations
  rw [if_neg hne]

theorem getRecommendations_sublist (booksData : List Book) (userBookData : UserBookData) :
    List.Sublist (getRecommendations booksData userBookData)
      (arraySort compareScore (positiveCandidates booksData userBookData)) := by
  unfold getRecommendations
  split
  · exact List.nil_sublist _
  · exact List.take_sublist 6 _

theorem rating_mul_length_le_sum (r : Nat) (f : String → Nat) (ts : List String)
    (h : ∀ t ∈ ts, r ≤ f t) : r * ts.length ≤ (ts.map f).sum := by
  induction ts with
  | nil => simp
  | cons a rest ih =>
    have ha := h a (List.mem_cons_self a rest)
    have hrest := ih (fun t ht => h t (List.mem_cons_of_mem a ht))
    simp only [List.length_cons, List.map_cons, List.sum_cons, Nat.mul_add, Nat.mul_one]
    omega

theorem term_le_sum_of_mem {α : Type} (f : α → Nat) (l : List α) (a : α) (h : a ∈ l) :
    f a ≤ (l.map f).sum := by
  induction l with
  | nil => simp at h
  | cons b rest ih =>
    rcases List.mem_cons.1 h with rfl | h
    · simp
    · have := ih h
      simp only [List.map_cons, List.sum_cons]
      omega

theorem sum_mul_indicator {α : Type} (r : α → Nat) (p : α → Bool) (l : List α) :
    (l.map fun b => r b * (if p b = true then 1 else 0)).sum = ((l.filter p).map r).sum := by
  induction l with
  | nil => simp
  | cons a rest ih =>
    by_cases h : p a = true
    · rw [List.filter_cons_of_pos h]
      simp only [List.map_cons, List.sum_cons, ih, h, if_true, Nat.mul_one]
    · rw [List.filter_cons_of_neg h]
      simp only [List.map_cons, List.sum_cons, ih, if_neg h, Nat.mul_zero, Nat.zero_add]

theorem roundToDouble_self (n : Nat) (hn : n ≠ 0) :
    roundToDouble n n = (2 ^ 52, 2 ^ 52) := by
  have hpos : 0 < n := Nat.pos_of_ne_zero hn
  have hdiv : n * 2 ^ 52 / n = 2 ^ 52 := Nat.mul_div_cancel_left _ hpos
  have hmod : n * 2 ^ 52 % n = 0 := Nat.mul_mod_right _ _
  unfold roundToDouble
  simp only [hn, or_self, if_false, sub_self, Int.toNat_zero, neg_zero, pow_zero, Nat.mul_one,
    le_refl, if_true, Int.sub_zero]
  have h52 : (52 : Int).toNat = 52 := rfl
  have hneg : (-(52 : Int)).toNat = 0 := rfl
  simp only [h52, hneg, pow_zero, Nat.mul_one, hdiv, hmod, Nat.mul_zero, hpos, if_true]

/-- When every theme matches, the quotient is exactly `1` and the percentage `100`. -/
theorem matchPercentageOf_self (n : Nat) (hn : n ≠ 0) : matchPercentageOf n n = some 100 := by
  unfold matchPercentageOf
  rw [if_neg hn, roundToDouble_self n hn]
  decide

/-- Without repeated themes the accumulated sum is the set-based weight. -/
theorem weightSum_eq_setThemeWeight (booksData : List Book) (userBookData : UserBookData)
    (hnodup : ∀ book ∈ booksData, book.themes.Nodup) (t : String) :
    ((highlyRatedBooks booksData userBookData).map fun book =>
        (getUserBookData userBookData book.id).rating * book.themes.count t).sum
      = setThemeWeight booksData userBookData t := by
  unfold setThemeWeight
  rw [← sum_mul_indicator]
  apply congrArg
  apply List.map_congr_left
  intro book hbook
  have hb : book ∈ booksData := (List.mem_filter.1 hbook).1
  by_cases ht : t ∈ book.themes
  · rw [List.count_eq_one_of_mem (hnodup book hb) ht]
    simp [ht]
  · rw [List.count_eq_zero_of_not_mem ht]
    simp [ht]

/-- Away from inherited property names, a liked unread book with themes gets a
score of at least its rating times the number of its themes, all of its themes as
matching themes and match percentage 100, and its entry is a positive candidate. -/
theorem liked_unread_plain_book_scored (booksData : List Book) (userBookData : UserBookData)
    (book : Book) (hmem : book ∈ booksData)
    (hr : 4 ≤ (getUserBookData userBookData book.id).rating)
    (hunread : (getUserBookData userBookData book.id).isRead = false)
    (hthemes : book.themes ≠ [])
    (hplain : ∀ t ∈ book.themes, t ∉ objectPrototypeNames) :
    let item := scoreBook (themeWeightsOf booksData userBookData) book
    (∃ n, item.score = .number n ∧
      (getUserBookData userBookData book.id).rating * book.themes.length ≤ n ∧ 0 < n) ∧
    item.matchingThemes = book.themes ∧
    item.matchPercentage = some 100 ∧
    item ∈ positiveCandidates booksData userBookData := by
  intro item
  have hin : book ∈ highlyRatedBooks booksData userBookData := by
    simp [highlyRatedBooks, hmem, hr]
  have hw : ∀ t ∈ book.themes, (getUserBookData userBookData book.id).rating
      ≤ ((highlyRatedBooks booksData userBookData).map fun liked =>
          (getUserBookData userBookData liked.id).rating * liked.themes.count t).sum := by
    intro t ht
    have hterm := term_le_sum_of_mem
      (fun b : Book => (getUserBookData userBookData b.id).rating * b.themes.count t)
      (highlyRatedBooks booksData userBookData) book hin
    have hcount : 1 ≤ book.themes.count t := List.count_pos_iff.2 ht
    have hmul : (getUserBookData userBookData book.id).rating * 1
        ≤ (getUserBookData userBookData book.id).rating * book.themes.count t :=
      Nat.mul_le_mul_left _ hcount
    simp only [Nat.mul_one] at hmul
    exact le_trans hmul hterm
  obtain ⟨hscore, hmatch⟩ := scoreBook_plain booksData userBookData book hplain
  have hall : (book.themes.filter fun t => decide
      (((highlyRatedBooks booksData userBookData).map fun liked =>
        (getUserBookData userBookData liked.id).rating * liked.themes.count t).sum ≠ 0))
      = book.themes := by
    rw [List.filter_eq_self]
    intro t ht
    have := hw t ht
    simp only [decide_eq_true_eq]
    omega
  rw [hall] at hscore hmatch
  have hlen : 0 < book.themes.length := List.length_pos.2 hthemes
  have hbound := rating_mul_length_le_sum _ _ _ hw
  have hpos : 0 < (getUserBookData userBookData book.id).rating * book.themes.length :=
    Nat.mul_pos (by omega) hlen
  have hitem : item ∈ positiveCandidates booksData userBookData := by
    unfold positiveCandidates scoredBooks unreadBooks
    refine List.mem_filter.2 ⟨List.mem_map.2 ⟨book, ?_, rfl⟩, ?_⟩
    · simp [hmem, hunread]
    · exact (positive_iff _).2 ⟨_, hscore, by omega⟩
  refine ⟨⟨_, hscore, hbound, by omega⟩, hmatch, ?_, hitem⟩
  show matchPercentageOf item.matchingThemes.length book.themes.length = some 100
  rw [hmatch]
  exact matchPercentageOf_self _ (by omega)

theorem filterSteps_eq_filter (toLowerCase : String → String) (booksData : List Book)
    (userBookData : UserBookData) (searchText statusFilter themeFilter : String)
    (hlower : toLowerCase "" = "")
    (hstatus : statusFilter ∈ ["all", "read", "unread", "rated"]) :
    filterSteps toLowerCase booksData userBookData searchText statusFilter themeFilter
      = booksData.filter fun book =>
          specSearch toLowerCase searchText book && specStatus userBookData statusFilter book
            && specTheme themeFilter book := by
  have hsearch : (if toLowerCase searchText ≠ "" then
        booksData.filter (searchPred toLowerCase (toLowerCase searchText)) else booksData)
      = booksData.filter (specSearch toLowerCase searchText) := by
    by_cases h : toLowerCase searchText = ""
    · have hall : ∀ book ∈ booksData, specSearch toLowerCase searchText book = true := by
        intro book _
        simp [specSearch, h]
      simp [h, List.filter_eq_self.2 hall]
    · have hs : searchText ≠ "" := fun hs => h (hs ▸ hlower)
      rw [if_pos h]
      apply List.filter_congr
      intro book _
      simp [searchPred, specSearch, includes, hs]
  have hstat : ∀ l : List Book, (if statusFilter ≠ "all" then
        l.filter (statusPred userBookData statusFilter) else l)
      = l.filter (specStatus userBookData statusFilter) := by
    intro l
    by_cases h : statusFilter = "all"
    · have hall : ∀ book ∈ l, specStatus userBookData statusFilter book = true := by
        intro book _
        simp [specStatus, h]
      rw [if_neg (not_not.2 h), List.filter_eq_self.2 hall]
    · rw [if_pos h]
      apply List.filter_congr
      intro book _
      simp only [List.mem_cons, List.mem_singleton, List.not_mem_nil, or_false] at hstatus
      rcases hstatus with h1 | h1 | h1 | h1
      · exact absurd h1 h
      all_goals subst h1; simp [statusPred, specStatus]
  have htheme : ∀ l : List Book, (if themeFilter ≠ "all" then
        l.filter (themePred themeFilter) else l)
      = l.filter (specTheme themeFilter) := by
    intro l
    by_cases h : themeFilter = "all"
    · have hall : ∀ book ∈ l, specTheme themeFilter book = true := by
        intro book _
        simp [specTheme, h]
      rw [if_neg (not_not.2 h), List.filter_eq_self.2 hall]
    · rw [if_pos h]
      apply List.filter_congr
      intro book _
      simp [themePred, specTheme, h]
  unfold filterSteps
  simp only []
  rw [hsearch, hstat, htheme, List.filter_filter, List.filter_filter]
  apply List.filter_congr
  intro book _
  cases specSearch toLowerCase searchText book <;>
    cases specStatus userBookData statusFilter book <;>
    cases specTheme themeFilter book <;> rfl

/-- Sorting by a comparator that orders by an integer key: the result is ordered
by the key, books with equal key keep their order, and sorting again changes
nothing. -/
theorem arraySort_by_key {α : Type} (cmp : α → α → Int) (key : α → Int)
    (hkey : ∀ a b, cmp a b ≤ 0 ↔ key a ≤ key b) (l : List α) :
    (arraySort cmp l).Pairwise (fun a b => key a ≤ key b) ∧
    (∀ v : Int, (arraySort cmp l).filter (fun a => decide (key a = v))
      = l.filter (fun a => decide (key a = v))) ∧
    arraySort cmp (arraySort cmp l) = arraySort cmp l := by
  have hsorted := arraySort_pairwise cmp key hkey l
  refine ⟨hsorted, ?_, ?_⟩
  · intro v
    apply arraySort_filter
    intro a b ha hb
    have ha2 : key a = v := by simpa using ha
    have hb2 : key b = v := by simpa using hb
    exact (hkey a b).2 (by omega)
  · apply arraySort_eq_self
    exact List.Pairwise.imp (fun {a b} hab => (hkey a b).2 hab) hsorted

theorem filterSteps_sublist (toLowerCase : String → String) (booksData : List Book)
    (userBookData : UserBookData) (searchInput statusFilter themeFilter : String) :
    List.Sublist
      (filterSteps toLowerCase booksData userBookData searchInput statusFilter themeFilter)
      booksData := by
  unfold filterSteps
  simp only []
  have h1 : ∀ (c : Prop) [Decidable c] (p : Book → Bool) (l : List Book),
      List.Sublist (if c then l.filter p else l) l := by
    intro c _ p l
    split
    · exact List.filter_sublist l
    · exact List.Sublist.refl l
  exact ((h1 _ _ _).trans (h1 _ _ _)).trans (h1 _ _ _)

/-! ## The claims -/

/-- C6. For every annotation map, book id and partial annotation, reading the id
after `setUserBookData` gives each field named in the partial annotation from the
partial annotation and every other field from what `getUserBookData` returned
before the call (the stored entry, or the default with rating 0 and unread); in
particular setting only rating 5 yields rating 5 with the previous read flag. -/
theorem getUserBookData_setUserBookData (userBookData : UserBookData) (bookId : Int)
    (data : PartialAnnotation) :
    (getUserBookData (setUserBookData userBookData bookId data) bookId).rating
        = data.rating.getD (getUserBookData userBookData bookId).rating ∧
    (getUserBookData (setUserBookData userBookData bookId data) bookId).isRead
        = data.isRead.getD (getUserBookData userBookData bookId).isRead ∧
    (getProp userBookData bookId = none →
      getUserBookData userBookData bookId = { rating := 0, isRead := false }) ∧
    getUserBookData
        (setUserBookData userBookData bookId { rating := some 5, isRead := none }) bookId
      = { rating := 5, isRead := (getUserBookData userBookData bookId).isRead } := by
  have hget : ∀ d : PartialAnnotation,
      getUserBookData (setUserBookData userBookData bookId d) bookId
        = spread (getUserBookData userBookData bookId) d := by
    intro d
    unfold setUserBookData
    generalize spread (getUserBookData userBookData bookId) d = v
    unfold getUserBookData
    rw [getProp_setProp]
    simp
  refine ⟨?_, ?_, ?_, ?_⟩
  · rw [hget]
    cases h : data.rating <;> simp [spread, h]
  · rw [hget]
    cases h : data.isRead <;> simp [spread, h]
  · intro h
    simp [getUserBookData, h, defaultAnnotation]
  · rw [hget]
    rfl

theorem getUserBookData_setUserBookData_witness :
    getProp likedUnread 7 = none ∧
    getUserBookData likedUnread 7 = { rating := 0, isRead := false } ∧
    getUserBookData (setUserBookData likedUnread 7 { rating := some 5, isRead := none }) 7
      = { rating := 5, isRead := false } :=
  have h := getUserBookData_setUserBookData likedUnread 7 { rating := some 5, isRead := none }
  ⟨by decide, h.2.2.1 (by decide), h.2.2.2.trans (by decide)⟩

/-- C2 (the code at the failing input). When the stored string is not empty and
`JSON.parse` raises on it, `loadUserData` raises the same exception: nothing
catches it. -/
theorem loadUserData_propagates {ε : Type} (parse : String → Except ε UserBookData)
    (s : String) (e : ε) (userBookData : UserBookData)
    (hs : s ≠ "") (hparse : parse s = .error e) :
    loadUserData parse (some s) userBookData = .error e := by
  simp [loadUserData, hs, hparse]

theorem loadUserData_propagates_witness :
    loadUserData parseEmptyObject (some "\x7bnot json") [(1, { rating := 5, isRead := true })]
      = .error "SyntaxError" :=
  loadUserData_propagates parseEmptyObject "\x7bnot json" "SyntaxError" _ (by decide) rfl

/-- C4. For every catalog and annotation map, every entry returned by
`getRecommendations` is for a book whose current annotation is unread: no book
with the read flag set appears in the output, whatever its rating or themes. -/
theorem getRecommendations_excludes_read (booksData : List Book)
    (userBookData : UserBookData) :
    ∀ item ∈ getRecommendations booksData userBookData,
      (getUserBookData userBookData item.book.id).isRead = false := by
  intro item hitem
  obtain ⟨_, book, _, hunread, rfl⟩ :=
    mem_positiveCandidates booksData userBookData item
      (mem_getRecommendations booksData userBookData item hitem)
  simpa [scoreBook_book] using hunread

theorem getRecommendations_excludes_read_witness :
    (⟨magicBook, .number 5, ["magic"], some 100⟩ : ScoredBook)
        ∈ getRecommendations [warBook, magicBook] ratedFirst ∧
    (getUserBookData ratedFirst magicBook.id).isRead = false :=
  ⟨by decide,
    getRecommendations_excludes_read [warBook, magicBook] ratedFirst
      ⟨magicBook, .number 5, ["magic"], some 100⟩ (by decide)⟩

/-- C5. For every catalog and annotation map, `getRecommendations` returns at most
six entries, the score of every entry is a number greater than 0, and the scores
of consecutive entries are non-increasing. -/
theorem getRecommendations_bound (booksData : List Book) (userBookData : UserBookData) :
    (getRecommendations booksData userBookData).length ≤ 6 ∧
    (∀ item ∈ getRecommendations booksData userBookData,
      ∃ n, item.score = .number n ∧ 0 < n) ∧
    (getRecommendations booksData userBookData).Chain'
      (fun a b => ∃ m n, a.score = .number m ∧ b.score = .number n ∧ n ≤ m) := by
  refine ⟨?_, ?_, ?_⟩
  · unfold getRecommendations
    split
    · simp
    · exact List.length_take_le 6 _
  · intro item hitem
    exact (mem_positiveCandidates booksData userBookData item
      (mem_getRecommendations booksData userBookData item hitem)).1
  · exact ((sorted_positiveCandidates booksData userBookData).2.1.sublist
      (getRecommendations_sublist booksData userBookData)).chain'

theorem getRecommendations_bound_witness :
    (⟨magicBook, .number 5, ["magic"], some 100⟩ : ScoredBook)
        ∈ getRecommendations [warBook, magicBook] ratedFirst ∧
    ∃ n, (⟨magicBook, .number 5, ["magic"], some 100⟩ : ScoredBook).score = .number n ∧ 0 < n :=
  ⟨by decide,
    (getRecommendations_bound [warBook, magicBook] ratedFirst).2.1
      ⟨magicBook, .number 5, ["magic"], some 100⟩ (by decide)⟩

/-- C9. For every catalog and annotation map with at least one liked book,
`getRecommendations` returns the first six entries (all when there are fewer) of
the stable descending sort by score of the unread books with positive score taken
in catalog order: the sorted list is a rearrangement of those candidates, whose
scores are positive numbers, its scores never increase, entries with equal score
keep their catalog order, and no entry cut off by the limit has a score above that
of a returned entry. -/
theorem getRecommendations_top_six (booksData : List Book) (userBookData : UserBookData)
    (hliked : ∃ book ∈ booksData, 4 ≤ (getUserBookData userBookData book.id).rating) :
    let candidates :=
      ((booksData.filter fun book => !(getUserBookData userBookData book.id).isRead).map
        (scoreBook (themeWeightsOf booksData userBookData))).filter
        fun item => positive item.score
    ∃ sorted : List ScoredBook,
      (∀ item ∈ candidates, ∃ n, item.score = .number n ∧ 0 < n) ∧
      sorted.Perm candidates ∧
      sorted.Pairwise (fun a b => ∃ m n, a.score = .number m ∧ b.score = .number n ∧ n ≤ m) ∧
      (∀ s : Nat, sorted.filter (fun item => decide (item.score = .number s))
        = candidates.filter (fun item => decide (item.score = .number s))) ∧
      getRecommendations booksData userBookData = sorted.take 6 ∧
      (sorted.length ≤ 6 → getRecommendations booksData userBookData = sorted) ∧
      (∀ x ∈ sorted.drop 6, ∀ y ∈ getRecommendations booksData userBookData,
        ∃ m n, x.score = .number m ∧ y.score = .number n ∧ m ≤ n) := by
  intro candidates
  have hcand : candidates = positiveCandidates booksData userBookData := rfl
  obtain ⟨book, hmem, hr⟩ := hliked
  have hrec : getRecommendations booksData userBookData
      = (arraySort compareScore candidates).take 6 := by
    rw [hcand]
    exact getRecommendations_of_liked booksData userBookData book hmem hr
  obtain ⟨hperm, hsorted, hstable⟩ := sorted_positiveCandidates booksData userBookData
  rw [← hcand] at hperm hsorted hstable
  refine ⟨arraySort compareScore candidates, ?_, hperm, hsorted, hstable, hrec, ?_, ?_⟩
  · intro item hitem
    rw [hcand] at hitem
    exact (mem_positiveCandidates booksData userBookData item hitem).1
  · intro hlen
    rw [hrec, List.take_of_length_le hlen]
  · intro x hx y hy
    rw [hrec] at hy
    have hsplit : (arraySort compareScore candidates).take 6 ++
        (arraySort compareScore candidates).drop 6 = arraySort compareScore candidates :=
      List.take_append_drop 6 _
    rw [← hsplit, List.pairwise_append] at hsorted
    obtain ⟨m, n, hm, hn, hle⟩ := hsorted.2.2 y hy x hx
    exact ⟨n, m, hn, hm, hle⟩

theorem getRecommendations_top_six_witness :
    (∃ book ∈ [warBook, magicBook], 4 ≤ (getUserBookData ratedFirst book.id).rating) ∧
    getRecommendations [warBook, magicBook] ratedFirst
      = [⟨magicBook, .number 5, ["magic"], some 100⟩] := by
  have hliked : ∃ book ∈ [warBook, magicBook], 4 ≤ (getUserBookData ratedFirst book.id).rating :=
    ⟨warBook, by decide, by decide⟩
  obtain ⟨sorted, _, hperm, _, _, hrec, _, _⟩ :=
    getRecommendations_top_six [warBook, magicBook] ratedFirst hliked
  have hcand : ((([warBook, magicBook].filter fun book =>
      !(getUserBookData ratedFirst book.id).isRead).map
      (scoreBook (themeWeightsOf [warBook, magicBook] ratedFirst))).filter
      fun item => positive item.score) = [⟨magicBook, .number 5, ["magic"], some 100⟩] := by
    decide
  rw [hcand] at hperm
  exact ⟨hliked, by rw [hrec, List.perm_singleton.1 hperm]; rfl⟩

/-- C10 (the code at the failing input). The catalog holds one book, rated 5,
unread, whose only theme is `constructor`.  The lookup of line 324 finds the
function inherited from `Object.prototype`, so the weight stored for the theme is
a string, the score of the book is a string, the test `score > 0` fails and
nothing is recommended, although the book is liked, unread and has a theme. -/
theorem liked_constructor_book_not_recommended :
    constructorBook ∈ [constructorBook] ∧
    4 ≤ (getUserBookData likedFirstUnread constructorBook.id).rating ∧
    (getUserBookData likedFirstUnread constructorBook.id).isRead = false ∧
    constructorBook.themes ≠ [] ∧
    getWeight (themeWeightsOf [constructorBook] likedFirstUnread) "constructor" = .text ∧
    (scoreBook (themeWeightsOf [constructorBook] likedFirstUnread) constructorBook).score
      = .text ∧
    getRecommendations [constructorBook] likedFirstUnread = [] := by
  decide

/-- C1 (as stated, refuted). A liked book that lists `magic` twice, rated 5, gives
`magic` the weight 10 in the code and 5 under the set reading, and the unread
candidate with the single theme `magic` is returned with score 10, not 5. -/
theorem set_scoring_counterexample :
    getWeight (themeWeightsOf [doubledBook, magicBook] ratedFirst) "magic" = .number 10 ∧
    setThemeWeight [doubledBook, magicBook] ratedFirst "magic" = 5 ∧
    setScore [doubledBook, magicBook] ratedFirst magicBook = 5 ∧
    getRecommendations [doubledBook, magicBook] ratedFirst
      = [⟨magicBook, .number 10, ["magic"], some 100⟩] := by
  decide

/-- C1 (amended). `getRecommendations` scores with each theme list taken with
multiplicity.  For a theme that is not the name of a property inherited from
`Object.prototype`, the weight `themeWeights[t] || 0` is the sum, over the liked
books, of the rating times the number of times the book lists the theme.  The
score of every unread candidate none of whose themes is such a name, and the score
of every returned entry, is the sum of those weights over the entries of its theme
list that have a weight.  When moreover no catalog book lists a theme twice,
weights and scores are the set-based ones of the specification. -/
theorem getRecommendations_scores_with_multiplicity (booksData : List Book)
    (userBookData : UserBookData) :
    let themeWeights := themeWeightsOf booksData userBookData
    let weight := fun t : String =>
      ((booksData.filter fun book =>
          decide (4 ≤ (getUserBookData userBookData book.id).rating)).map
        fun book => (getUserBookData userBookData book.id).rating * book.themes.count t).sum
    let listScore := fun book : Book =>
      ((book.themes.filter fun t => decide (weight t ≠ 0)).map weight).sum
    (∀ t : String, t ∉ objectPrototypeNames →
      orZero (getWeight themeWeights t) = .number (weight t)) ∧
    (∀ item ∈ scoredBooks booksData userBookData,
      (∀ t ∈ item.book.themes, t ∉ objectPrototypeNames) →
        item.score = .number (listScore item.book)) ∧
    (∀ item ∈ getRecommendations booksData userBookData,
      item.score = .number (listScore item.book)) ∧
    ((∀ book ∈ booksData, book.themes.Nodup) →
      (∀ t : String, t ∉ objectPrototypeNames →
        orZero (getWeight themeWeights t)
          = .number (setThemeWeight booksData userBookData t)) ∧
      (∀ item ∈ scoredBooks booksData userBookData,
        (∀ t ∈ item.book.themes, t ∉ objectPrototypeNames) →
          item.score = .number (setScore booksData userBookData item.book)) ∧
      (∀ item ∈ getRecommendations booksData userBookData,
        item.score = .number (setScore booksData userBookData item.book))) := by
  intro themeWeights weight listScore
  have hweight : ∀ t : String, t ∉ objectPrototypeNames →
      orZero (getWeight themeWeights t) = .number (weight t) := fun t ht =>
    (readsNumber_themeWeightsOf booksData userBookData t ht).orZero_eq
  have hscored : ∀ item ∈ scoredBooks booksData userBookData,
      ∃ book ∈ booksData, item = scoreBook themeWeights book := by
    intro item hitem
    unfold scoredBooks unreadBooks at hitem
    obtain ⟨book, hb, rfl⟩ := List.mem_map.1 hitem
    exact ⟨book, (List.mem_filter.1 hb).1, rfl⟩
  have hlist : ∀ item ∈ scoredBooks booksData userBookData,
      (∀ t ∈ item.book.themes, t ∉ objectPrototypeNames) →
        item.score = .number (listScore item.book) := by
    intro item hitem hplain
    obtain ⟨book, _, rfl⟩ := hscored item hitem
    exact (scoreBook_plain booksData userBookData book hplain).1
  have hplainrec : ∀ item ∈ getRecommendations booksData userBookData,
      item ∈ scoredBooks booksData userBookData ∧
        ∀ t ∈ item.book.themes, t ∉ objectPrototypeNames := by
    intro item hitem
    have hpos := mem_getRecommendations booksData userBookData item hitem
    obtain ⟨⟨n, hn, _⟩, book, _, _, rfl⟩ :=
      mem_positiveCandidates booksData userBookData item hpos
    exact ⟨(List.mem_filter.1 hpos).1,
      themes_plain_of_score_number _ (inheritedAreText_themeWeightsOf booksData userBookData)
        book n hn⟩
  refine ⟨hweight, hlist,
    fun item hitem => hlist item (hplainrec item hitem).1 (hplainrec item hitem).2, ?_⟩
  intro hnodup
  have hw : ∀ t, weight t = setThemeWeight booksData userBookData t :=
    weightSum_eq_setThemeWeight booksData userBookData hnodup
  have hfun : weight = setThemeWeight booksData userBookData := funext hw
  have hset : ∀ item ∈ scoredBooks booksData userBookData,
      (∀ t ∈ item.book.themes, t ∉ objectPrototypeNames) →
        item.score = .number (setScore booksData userBookData item.book) := by
    intro item hitem hplain
    obtain ⟨book, hb, rfl⟩ := hscored item hitem
    rw [hlist _ hitem hplain]
    show JSValue.number ((book.themes.filter fun t => decide (weight t ≠ 0)).map weight).sum
      = .number (setScore booksData userBookData book)
    unfold setScore
    rw [(hnodup book hb).dedup, hfun]
  refine ⟨fun t ht => ?_, hset,
    fun item hitem => hset item (hplainrec item hitem).1 (hplainrec item hitem).2⟩
  rw [hweight t ht, hw t]

theorem getRecommendations_scores_with_multiplicity_witness :
    (∀ book ∈ [warBook, magicBook], book.themes.Nodup) ∧
    "war" ∉ objectPrototypeNames ∧ "magic" ∉ objectPrototypeNames ∧
    orZero (getWeight (themeWeightsOf [warBook, magicBook] ratedFirst) "war") = .number 5 ∧
    orZero (getWeight (themeWeightsOf [warBook, magicBook] ratedFirst) "magic") = .number 5 ∧
    getRecommendations [warBook, magicBook] ratedFirst
      = [⟨magicBook, .number 5, ["magic"], some 100⟩] :=
  have hnodup : ∀ book ∈ [warBook, magicBook], book.themes.Nodup := by decide
  have h := (getRecommendations_scores_with_multiplicity [warBook, magicBook] ratedFirst).2.2.2
    hnodup
  ⟨hnodup, by decide, by decide,
    (h.1 "war" (by decide)).trans (by decide), (h.1 "magic" (by decide)).trans (by decide),
    by decide⟩

/-- C3. For every catalog, annotation map and query with a recognised status
filter, and for every sort key, the books returned by `getFilteredBooks` are a
permutation of the catalog filtered by the conjunction of the text, status and
theme predicates: a book is returned exactly when it is in the catalog and
satisfies all three.  The host's lower-casing is assumed to keep the empty string
empty. -/
theorem getFilteredBooks_perm_filter (toLowerCase : String → String)
    (localeCompare : String → String → Int) (booksData : List Book)
    (userBookData : UserBookData) (searchText statusFilter themeFilter sortKey : String)
    (hlower : toLowerCase "" = "")
    (hstatus : statusFilter ∈ ["all", "read", "unread", "rated"]) :
    let keep := fun book : Book =>
      (decide (searchText = "") ||
        decide ((toLowerCase searchText).data <:+: (toLowerCase book.title).data) ||
        decide ((toLowerCase searchText).data <:+: (toLowerCase book.author).data)) &&
      specStatus userBookData statusFilter book &&
      (decide (themeFilter = "all") || decide (themeFilter ∈ book.themes))
    (getFilteredBooks toLowerCase localeCompare booksData userBookData
        searchText statusFilter themeFilter sortKey).Perm (booksData.filter keep) ∧
    (∀ book : Book,
      book ∈ getFilteredBooks toLowerCase localeCompare booksData userBookData
          searchText statusFilter themeFilter sortKey
        ↔ book ∈ booksData ∧ keep book = true) := by
  intro keep
  have hperm : (getFilteredBooks toLowerCase localeCompare booksData userBookData
      searchText statusFilter themeFilter sortKey).Perm (booksData.filter keep) := by
    unfold getFilteredBooks
    rw [filterSteps_eq_filter toLowerCase booksData userBookData searchText statusFilter
      themeFilter hlower hstatus]
    exact arraySort_perm _ _
  refine ⟨hperm, fun book => ?_⟩
  rw [hperm.mem_iff, List.mem_filter]

theorem getFilteredBooks_perm_filter_witness :
    (asciiLower "" = "" ∧ "rated" ∈ ["all", "read", "unread", "rated"]) ∧
    List.Perm
      (getFilteredBooks asciiLower lengthCompare [warBook, magicBook] ratedFirst
        "A" "rated" "magic" "year-desc")
      [warBook] :=
  ⟨⟨by decide, by decide⟩,
    (getFilteredBooks_perm_filter asciiLower lengthCompare [warBook, magicBook] ratedFirst
      "A" "rated" "magic" "year-desc" (by decide) (by decide)).1⟩

/-- C7 (as stated, refuted). The theme filter `dragons` is not `all` and is a theme
of no catalog book, yet it removes every book instead of none. -/
theorem unknown_theme_counterexample :
    "dragons" ≠ "all" ∧
    (∀ book ∈ [warBook, magicBook], "dragons" ∉ book.themes) ∧
    getFilteredBooks asciiLower lengthCompare [warBook, magicBook] ratedFirst
      "" "all" "dragons" "year-asc" = [] ∧
    getFilteredBooks asciiLower lengthCompare [warBook, magicBook] ratedFirst
      "" "all" "all" "year-asc" = [magicBook, warBook] := by
  decide

/-- C7 (amended). In `getFilteredBooks` an unrecognised status filter or sort key
makes its step the identity and never an error: a status filter outside the four
recognised values gives the result of `all`, and a sort key outside the five
recognised values returns the filtered books in catalog order.  A theme filter that
is not `all` and is a theme of no catalog book removes every book: the result is
empty. -/
theorem getFilteredBooks_unrecognised (toLowerCase : String → String)
    (localeCompare : String → String → Int) (booksData : List Book)
    (userBookData : UserBookData) (searchText statusFilter themeFilter sortKey : String) :
    (statusFilter ∉ ["all", "read", "unread", "rated"] →
      getFilteredBooks toLowerCase localeCompare booksData userBookData
          searchText statusFilter themeFilter sortKey
        = getFilteredBooks toLowerCase localeCompare booksData userBookData
          searchText "all" themeFilter sortKey) ∧
    (themeFilter ≠ "all" → (∀ book ∈ booksData, themeFilter ∉ book.themes) →
      getFilteredBooks toLowerCase localeCompare booksData userBookData
          searchText statusFilter themeFilter sortKey = []) ∧
    (sortKey ∉ ["title", "author", "year-asc", "year-desc", "rating"] →
      getFilteredBooks toLowerCase localeCompare booksData userBookData
          searchText statusFilter themeFilter sortKey
        = filterSteps toLowerCase booksData userBookData searchText statusFilter themeFilter ∧
      List.Sublist
        (getFilteredBooks toLowerCase localeCompare booksData userBookData
          searchText statusFilter themeFilter sortKey) booksData) := by
  refine ⟨?_, ?_, ?_⟩
  · intro hstatus
    simp only [List.mem_cons, List.mem_singleton, List.not_mem_nil, or_false, not_or] at hstatus
    obtain ⟨h1, h2, h3, h4⟩ := hstatus
    have hall : ∀ l : List Book, l.filter (statusPred userBookData statusFilter) = l := by
      intro l
      apply List.filter_eq_self.2
      intro book _
      simp [statusPred, h2, h3, h4]
    unfold getFilteredBooks filterSteps
    simp only [hall, ite_self, ne_eq, not_true_eq_false, if_false]
  · intro hne hnone
    have hsub := filterSteps_sublist toLowerCase booksData userBookData searchText
      statusFilter "all"
    have hsteps : filterSteps toLowerCase booksData userBookData searchText statusFilter
        themeFilter
        = (filterSteps toLowerCase booksData userBookData searchText statusFilter "all").filter
            (themePred themeFilter) := by
      unfold filterSteps
      simp [hne]
    unfold getFilteredBooks
    rw [hsteps]
    have hempty : (filterSteps toLowerCase booksData userBookData searchText statusFilter
        "all").filter (themePred themeFilter) = [] := by
      rw [List.filter_eq_nil_iff]
      intro book hbook
      simp [themePred, hnone book (hsub.subset hbook)]
    rw [hempty]
    rfl
  · intro hsort
    simp only [List.mem_cons, List.mem_singleton, List.not_mem_nil, or_false, not_or] at hsort
    obtain ⟨h1, h2, h3, h4, h5⟩ := hsort
    have heq : getFilteredBooks toLowerCase localeCompare booksData userBookData
          searchText statusFilter themeFilter sortKey
        = filterSteps toLowerCase booksData userBookData searchText statusFilter
          themeFilter := by
      unfold getFilteredBooks
      apply arraySort_eq_self
      apply List.pairwise_of_forall
      intro a b
      simp [compareBooks, h1, h2, h3, h4, h5]
    exact ⟨heq, heq ▸ filterSteps_sublist _ _ _ _ _ _⟩

theorem getFilteredBooks_unrecognised_witness :
    ("bogus" ∉ ["all", "read", "unread", "rated"] ∧
      "dragons" ≠ "all" ∧ (∀ book ∈ [warBook, magicBook], "dragons" ∉ book.themes) ∧
      "bogus" ∉ ["title", "author", "year-asc", "year-desc", "rating"]) ∧
    getFilteredBooks asciiLower lengthCompare [warBook, magicBook] ratedFirst
        "" "bogus" "all" "bogus"
      = getFilteredBooks asciiLower lengthCompare [warBook, magicBook] ratedFirst
        "" "all" "all" "bogus" ∧
    getFilteredBooks asciiLower lengthCompare [warBook, magicBook] ratedFirst
        "" "all" "dragons" "title" = [] ∧
    getFilteredBooks asciiLower lengthCompare [warBook, magicBook] ratedFirst
        "" "all" "all" "bogus"
      = filterSteps asciiLower [warBook, magicBook] ratedFirst "" "all" "all" :=
  ⟨⟨by decide, by decide, by decide, by decide⟩,
    (getFilteredBooks_unrecognised asciiLower lengthCompare [warBook, magicBook] ratedFirst
      "" "bogus" "all" "bogus").1 (by decide),
    (getFilteredBooks_unrecognised asciiLower lengthCompare [warBook, magicBook] ratedFirst
      "" "all" "dragons" "title").2.1 (by decide) (by decide),
    ((getFilteredBooks_unrecognised asciiLower lengthCompare [warBook, magicBook] ratedFirst
      "" "all" "all" "bogus").2.2 (by decide)).1⟩

/-- C8. For every catalog with integer years, annotation map and query, the list
returned by `getFilteredBooks` under a numeric sort key is ordered by that key and
stable: with `year-asc` every adjacent pair has non-decreasing years, with
`year-desc` non-increasing years, with `rating` non-increasing ratings; in each
case the books with one and the same key value appear exactly as in the filtered
catalog, which keeps catalog order; and sorting the result again with the same key
returns it unchanged. -/
theorem getFilteredBooks_sorted_stable (toLowerCase : String → String)
    (localeCompare : String → String → Int) (booksData : List Book)
    (userBookData : UserBookData) (searchText statusFilter themeFilter : String) :
    let filtered :=
      filterSteps toLowerCase booksData userBookData searchText statusFilter themeFilter
    let result := fun sortKey : String =>
      getFilteredBooks toLowerCase localeCompare booksData userBookData
        searchText statusFilter themeFilter sortKey
    let rating := fun book : Book => (getUserBookData userBookData book.id).rating
    List.Sublist filtered booksData ∧
    ((result "year-asc").Chain' (fun a b => a.year ≤ b.year) ∧
      (∀ y : Int, (result "year-asc").filter (fun book => decide (book.year = y))
        = filtered.filter (fun book => decide (book.year = y))) ∧
      arraySort (compareBooks localeCompare userBookData "year-asc") (result "year-asc")
        = result "year-asc") ∧
    ((result "year-desc").Chain' (fun a b => a.year ≥ b.year) ∧
      (∀ y : Int, (result "year-desc").filter (fun book => decide (book.year = y))
        = filtered.filter (fun book => decide (book.year = y))) ∧
      arraySort (compareBooks localeCompare userBookData "year-desc") (result "year-desc")
        = result "year-desc") ∧
    ((result "rating").Chain' (fun a b => rating a ≥ rating b) ∧
      (∀ r : Nat, (result "rating").filter (fun book => decide (rating book = r))
        = filtered.filter (fun book => decide (rating book = r))) ∧
      arraySort (compareBooks localeCompare userBookData "rating") (result "rating")
        = result "rating") := by
  intro filtered result rating
  have hasc := arraySort_by_key (compareBooks localeCompare userBookData "year-asc")
    (fun book => book.year)
    (fun a b => by
      show compareBooks localeCompare userBookData "year-asc" a b ≤ 0 ↔ a.year ≤ b.year
      simp [compareBooks]) filtered
  have hdesc := arraySort_by_key (compareBooks localeCompare userBookData "year-desc")
    (fun book => -book.year)
    (fun a b => by
      show compareBooks localeCompare userBookData "year-desc" a b ≤ 0 ↔ -a.year ≤ -b.year
      simp [compareBooks]) filtered
  have hrat := arraySort_by_key (compareBooks localeCompare userBookData "rating")
    (fun book => -(rating book : Int))
    (fun a b => by
      show compareBooks localeCompare userBookData "rating" a b ≤ 0
        ↔ -(rating a : Int) ≤ -(rating b : Int)
      simp [compareBooks, rating]) filtered
  refine ⟨filterSteps_sublist _ _ _ _ _ _, ⟨?_, ?_, hasc.2.2⟩, ⟨?_, ?_, hdesc.2.2⟩,
    ⟨?_, ?_, hrat.2.2⟩⟩
  · exact hasc.1.chain'
  · intro y
    exact hasc.2.1 y
  · exact (List.Pairwise.imp (fun {a b} hab => by
      have h : -a.year ≤ -b.year := hab
      show a.year ≥ b.year
      omega) hdesc.1).chain'
  · intro y
    have h := hdesc.2.1 (-y)
    have hp : (fun book : Book => decide (-book.year = -y))
        = (fun book : Book => decide (book.year = y)) := by
      funext book
      simp
    rw [hp] at h
    exact h
  · exact (List.Pairwise.imp (fun {a b} hab => by
      have h : -(rating a : Int) ≤ -(rating b : Int) := hab
      show rating a ≥ rating b
      omega) hrat.1).chain'
  · intro r
    have h := hrat.2.1 (-(r : Int))
    have hp : (fun book : Book => decide (-(rating book : Int) = -(r : Int)))
        = (fun book : Book => decide (rating book = r)) := by
      funext book
      simp
    rw [hp] at h
    exact h

end BookTracker
